import Mathlib

/-!
Verification of the borealis view-tree and focus-navigation core.

Shallow embedding of the C++ sources under `library/lib` and
`library/include/borealis`:

* `view.cpp` / `view.hpp` — base `View`: `frame()` template method,
  `applyXMLAttribute` typed-channel dispatch, alpha composition.
* `box.cpp` / `box.hpp` — `Box`: child list, `getDefaultFocus`,
  `getNextFocus` (linear scan with a `size_t` offset that wraps for the
  backward direction).
* `scrolling_box.cpp` — `ScrollingBox`: content-height computation and
  the scroll-target clamping of `updateScrolling`.
* `box_layout.cpp` — legacy `BoxLayout`: focus-memory state machine and
  the RIGHT-gravity post-pass of `layout()`.

Machine floats are modelled by `ℚ` (the branch conditions involved are
exact comparisons, no rounding is involved in any branch decision we
reason about); `size_t` arithmetic is modelled by `Nat` with explicit
reduction modulo `2 ^ 64`.
-/

namespace Borealis

/-- `size_t` modulus: all index arithmetic in `Box::getNextFocus` is done
on 64-bit unsigned integers. -/
def sizeTMod : Nat := 2 ^ 64

/-- `enum class FocusDirection` from `view.hpp`. -/
inductive FocusDirection where
  | up
  | down
  | left
  | right
deriving DecidableEq, Repr

/-- `enum class Axis` from `box.hpp`. -/
inductive Axis where
  | row
  | column
deriving DecidableEq, Repr

/-- A view tree.  `leaf` models an arbitrary non-container `View`
subclass: the base `View::getDefaultFocus` returns `nullptr`, and a
focusable subclass overrides it to return itself — the `focusable` flag
abstracts that virtual dispatch.  `box` carries the fields of
`brls::Box` that focus resolution reads: the axis, the
`defaultFocusedIndex` and the ordered `children` vector
(`box.hpp`, fields `axis`, `children`, `defaultFocusedIndex`). -/
inductive ViewT where
  | leaf (id : Nat) (focusable : Bool)
  | box (axis : Axis) (defaultFocusedIndex : Nat) (children : List ViewT)

mutual

/-- `Box::getDefaultFocus` (`box.cpp:198-219`) together with the base
`View::getDefaultFocus` (`view.hpp:671-674`): first try the child at
`defaultFocusedIndex` when it is in range (`if (this->defaultFocusedIndex
< this->children.size())`), then linearly scan all children for the
first one that accepts focus. -/
def getDefaultFocus (v : ViewT) : Option ViewT :=
  match v with
  | .leaf id focusable => if focusable then some (.leaf id focusable) else none
  | .box _ d cs =>
      match (if h : d < cs.length then
               have : sizeOf (cs.get ⟨d, h⟩) < 1 + sizeOf cs := by
                 have := List.sizeOf_lt_of_mem (cs.get_mem d h)
                 omega
               getDefaultFocus (cs.get ⟨d, h⟩)
             else none) with
      | some v => some v
      | none => scanFirstFocus cs
termination_by sizeOf v
decreasing_by
  · simp only [ViewT.box.sizeOf_spec]; omega
  · simp only [ViewT.box.sizeOf_spec]; omega

/-- The fallback loop of `Box::getDefaultFocus` (`box.cpp:210-216`):
first child whose own `getDefaultFocus` is non-null. -/
def scanFirstFocus (cs : List ViewT) : Option ViewT :=
  match cs with
  | [] => none
  | c :: rest =>
      match getDefaultFocus c with
      | some v => some v
      | none => scanFirstFocus rest
termination_by sizeOf cs
decreasing_by
  · simp only [List.cons.sizeOf_spec]; omega
  · simp only [List.cons.sizeOf_spec]; omega

end

/-- One traversal loop of `Box::getNextFocus` (`box.cpp:242-246`):

```cpp
while (!currentFocus && currentFocusIndex >= 0 && currentFocusIndex < this->children.size())
{
    currentFocus = this->children[currentFocusIndex]->getDefaultFocus();
    currentFocusIndex += offset;
}
```

`currentFocusIndex` and `offset` are `size_t`; `offset` is `1` for the
forward directions and `-1`, i.e. `2 ^ 64 - 1` after unsigned wrap, for
the backward ones, so the index update is addition modulo `2 ^ 64`.  The
`currentFocusIndex >= 0` conjunct is vacuous for an unsigned value and
is dropped.  Along with the scan result we record the list of child
indices actually read, in order, to reason about memory safety.

The length bound `hlen` reflects that a `std::vector<View*>` holds fewer
than `2 ^ 64` elements; the loop indeed terminates because a backward
step from index `0` wraps to `2 ^ 64 - 1 ≥ size`. -/
def focusScan (cs : List ViewT) (hlen : cs.length < sizeTMod) (forward : Bool)
    (idx : Nat) : Option ViewT × List Nat :=
  if h : idx < cs.length then
    match getDefaultFocus (cs.get ⟨idx, h⟩) with
    | some v => (some v, [idx])
    | none =>
        let next := (idx + (if forward then 1 else sizeTMod - 1)) % sizeTMod
        let r := focusScan cs hlen forward next
        (r.1, idx :: r.2)
  else (none, [])
termination_by if idx < cs.length then (if forward then cs.length - idx else idx + 1) else 0
decreasing_by
  simp_wf
  simp only [h, if_true]
  have hM : 0 < sizeTMod := by simp [sizeTMod]
  by_cases hnext : (idx + (if forward then 1 else sizeTMod - 1)) % sizeTMod < cs.length
  · simp only [hnext, if_true]
    cases forward with
    | true =>
        simp only [if_true]
        have h1 : idx + 1 < sizeTMod := by omega
        have : (idx + 1) % sizeTMod = idx + 1 := Nat.mod_eq_of_lt h1
        simp only [this] at hnext ⊢
        omega
    | false =>
        simp only [if_false, Bool.false_eq_true] at *
        rcases Nat.eq_zero_or_pos idx with hz | hp
        · subst hz
          have : (0 + (sizeTMod - 1)) % sizeTMod = sizeTMod - 1 := by
            apply Nat.mod_eq_of_lt; omega
          simp only [this] at hnext
          omega
        · have : (idx + (sizeTMod - 1)) % sizeTMod = idx - 1 := by
            have h2 : idx + (sizeTMod - 1) = (idx - 1) + 1 * sizeTMod := by omega
            rw [h2, Nat.add_mul_mod_self_right]
            exact Nat.mod_eq_of_lt (by omega)
          simp only [this] at hnext ⊢
          omega
  · simp only [hnext, if_false]
    split <;> omega

/-- `Box::getNextFocus` (`box.cpp:221-249`): axis/direction gate, offset
selection, then the linear sibling scan.  `curIdx` is the current
child's index recovered from its parent userdata (a `size_t`, hence
`< 2 ^ 64`). -/
def getNextFocus (axis : Axis) (cs : List ViewT) (hlen : cs.length < sizeTMod)
    (direction : FocusDirection) (curIdx : Nat) : Option ViewT :=
  if (axis = .row ∧ direction ≠ .left ∧ direction ≠ .right) ∨
      (axis = .column ∧ direction ≠ .up ∧ direction ≠ .down) then
    none
  else
    let forward : Bool :=
      ¬((axis = .row ∧ direction = .left) ∨ (axis = .column ∧ direction = .up))
    let offset : Nat := if forward then 1 else sizeTMod - 1
    (focusScan cs hlen forward ((curIdx + offset) % sizeTMod)).1

/-- The indices of the children that `Box::getNextFocus` reads from the
child vector, in scan order. -/
def getNextFocusReads (axis : Axis) (cs : List ViewT) (hlen : cs.length < sizeTMod)
    (direction : FocusDirection) (curIdx : Nat) : List Nat :=
  if (axis = .row ∧ direction ≠ .left ∧ direction ≠ .right) ∨
      (axis = .column ∧ direction ≠ .up ∧ direction ≠ .down) then
    []
  else
    let forward : Bool :=
      ¬((axis = .row ∧ direction = .left) ∨ (axis = .column ∧ direction = .up))
    let offset : Nat := if forward then 1 else sizeTMod - 1
    (focusScan cs hlen forward ((curIdx + offset) % sizeTMod)).2

/-! ## XML attribute dispatch (`View::applyXMLAttribute`, `view.cpp:942-1098`) -/

/-- An NanoVG color as produced by `nvgRGB` / `nvgRGBA`: four byte
channels.  `nvgRGB(r, g, b)` is `nvgRGBA(r, g, b, 255)`; NanoVG stores
each channel as `byte / 255`, so the bytes determine the color. -/
structure NVGColorT where
  r : Nat
  g : Nat
  b : Nat
  a : Nat
deriving DecidableEq, Repr

/-- Which typed channels an attribute name is registered in on a given
view: `count(name) > 0` on the five maps `stringAttributes`,
`autoAttributes`, `floatAttributes`, `percentageAttributes`,
`colorAttributes` of `View` (`view.hpp:135-139`). -/
structure AttrRegistration where
  hasString : Bool
  hasAuto : Bool
  hasFloat : Bool
  hasPercentage : Bool
  hasColor : Bool
deriving DecidableEq, Repr

/-- Outcome of `View::applyXMLAttribute`: which handler was invoked and
with what argument.  `notApplied` is the `return false` outcome (the
caller then raises the unknown/illegal diagnostic). -/
inductive XMLApplyResult where
  | stringApplied (value : String)
  | autoApplied
  | floatApplied (value : ℚ)
  | percentageApplied (value : ℚ)
  | colorApplied (color : NVGColorT)
  | notApplied
deriving DecidableEq, Repr

/-- The `endsWith` helper of `view.cpp:31-34`
(`data.find(suffix, data.size() - suffix.size()) != npos`): true exactly
when `data` ends with `suffix` (a `data` shorter than `suffix` makes the
start position wrap past the end, so `find` fails).  Attribute values
are ASCII, so char-list suffix testing agrees with the byte-level
`std::string` one. -/
def endsWithChars (data suf : List Char) : Bool :=
  List.isSuffixOf suf data

/-- The `startsWith` helper of `view.cpp:36-39`
(`data.rfind(prefix, 0) == 0`). -/
def startsWithChars (data pre : List Char) : Bool :=
  List.isPrefixOf pre data

/-- Digits (most significant first) to a natural number. -/
def digitsToNat (ds : List Char) : Nat :=
  ds.foldl (fun acc c => 10 * acc + (c.toNat - 48)) 0

/-- Models `std::stof` on its decimal subset, as used by
`applyXMLAttribute`: optional sign, then the longest prefix of digits
with an optional fractional part; `none` models the
`std::invalid_argument` exception when no conversion can be performed.
(Hexadecimal/exponent/infinity forms of `strtof` are outside the value
grammar of the spec and are not modelled.) -/
def stof? (cs : List Char) : Option ℚ :=
  let signAndRest : ℚ × List Char :=
    match cs with
    | '-' :: rest => (-1, rest)
    | '+' :: rest => (1, rest)
    | _ => (1, cs)
  let intDigits := signAndRest.2.takeWhile Char.isDigit
  let afterInt := signAndRest.2.dropWhile Char.isDigit
  let fracDigits :=
    match afterInt with
    | '.' :: rest => rest.takeWhile Char.isDigit
    | _ => []
  if intDigits.isEmpty ∧ fracDigits.isEmpty then none
  else
    some (signAndRest.1 *
      ((digitsToNat intDigits : ℚ) + (digitsToNat fracDigits : ℚ) / 10 ^ fracDigits.length))

/-- Value of one hexadecimal digit, as accepted by `sscanf`'s `%x`. -/
def hexDigit? (c : Char) : Option Nat :=
  if '0' ≤ c ∧ c ≤ '9' then some (c.toNat - 48)
  else if 'a' ≤ c ∧ c ≤ 'f' then some (c.toNat - 97 + 10)
  else if 'A' ≤ c ∧ c ≤ 'F' then some (c.toNat - 65 + 10)
  else none

/-- A `%02hhx` conversion: two hexadecimal digits to a byte. -/
def hexPair? (c1 c2 : Char) : Option Nat := do
  let h1 ← hexDigit? c1
  let h2 ← hexDigit? c2
  pure (16 * h1 + h2)

/-- `View::applyXMLAttribute` (`view.cpp:942-1098`), for a name whose
registrations are described by `reg`.  `styleGet` and `themeGet` stand
for the external `Application::getStyle()[...]` and
`Application::getTheme()[...]` lookups (black-box collaborators; a
missing key aborts construction and is outside this model).  The
branch order follows the source: string channel first, then `"auto"`,
then the `px` suffix, then the `%` suffix, then `@style/`, then `#`
colors, then `@theme/`, and finally a bare numeric literal.  Attribute
values are ASCII, so `String.length` agrees with `std::string::size`. -/
def applyXMLAttribute (reg : AttrRegistration) (styleGet : String → ℚ)
    (themeGet : String → NVGColorT) (value : String) : XMLApplyResult :=
  let cs := value.toList
  if reg.hasString then .stringApplied value
  else if value = "auto" then
    if reg.hasAuto then .autoApplied else .notApplied
  else if endsWithChars cs "px".toList then
    match stof? (cs.take (cs.length - 2)) with
    | some floatValue => if reg.hasFloat then .floatApplied floatValue else .notApplied
    | none => .notApplied
  else if endsWithChars cs "%".toList then
    match stof? (cs.take (cs.length - 1)) with
    | some floatValue =>
        if floatValue < 0 ∨ floatValue > 100 then .notApplied
        else if reg.hasPercentage then .percentageApplied floatValue
        else .notApplied
    | none => .notApplied
  else if startsWithChars cs "@style/".toList then
    if reg.hasFloat then .floatApplied (styleGet (String.mk (cs.drop 7))) else .notApplied
  else if startsWithChars cs "#".toList then
    if cs.length = 7 then
      match cs with
      | [_, r1, r2, g1, g2, b1, b2] =>
          match hexPair? r1 r2, hexPair? g1 g2, hexPair? b1 b2 with
          | some r, some g, some b =>
              if reg.hasColor then .colorApplied ⟨r, g, b, 255⟩ else .notApplied
          | _, _, _ => .notApplied
      | _ => .notApplied
    else if cs.length = 9 then
      match cs with
      | [_, r1, r2, g1, g2, b1, b2, a1, a2] =>
          match hexPair? r1 r2, hexPair? g1 g2, hexPair? b1 b2, hexPair? a1 a2 with
          | some r, some g, some b, some a =>
              if reg.hasColor then .colorApplied ⟨r, g, b, a⟩ else .notApplied
          | _, _, _, _ => .notApplied
      | _ => .notApplied
    else .notApplied
  else if startsWithChars cs "@theme/".toList then
    if reg.hasColor then .colorApplied (themeGet (String.mk (cs.drop 7))) else .notApplied
  else
    match stof? cs with
    | some newValue => if reg.hasFloat then .floatApplied newValue else .notApplied
    | none => .notApplied

/-! ## The `View::frame` template method (`view.cpp:92-150`) -/

/-- `enum class Visibility` from `view.hpp`. -/
inductive Visibility where
  | visible
  | invisible
  | gone
deriving DecidableEq, Repr

/-- The side effects `View::frame` can perform, in the vocabulary of the
source: graphics-state save/restore, theme override set/reset,
background, highlight background/foreground, the collapse scissor
(inner `nvgSave` + `nvgIntersectScissor` and its matching `nvgRestore`),
the view-specific `draw` hook, and `drawBorder`. -/
inductive DrawEvent where
  | save
  | themeSet
  | background
  | highlightBackground
  | scissorSave
  | scissor
  | drawHook
  | highlightForeground
  | border
  | scissorRestore
  | themeReset
  | restore
deriving DecidableEq, Repr

/-- The per-view fields that `View::frame` reads (from `view.hpp`):
visibility, theme override pointer (modelled as presence), alpha,
collapse state, highlight alpha, the virtual
`isHighlightBackgroundEnabled()` (default `true`), and the four border
thicknesses. -/
structure ViewFrameState where
  visibility : Visibility
  themeOverride : Bool
  alpha : ℚ
  collapseState : ℚ
  highlightAlpha : ℚ
  highlightBackgroundEnabled : Bool
  borderTop : ℚ
  borderRight : ℚ
  borderBottom : ℚ
  borderLeft : ℚ
deriving DecidableEq, Repr

/-- `View::drawBorder` (`view.cpp:152-174`): draws nothing when every
border thickness is `≤ 0`, one border fill otherwise. -/
def drawBorderTrace (v : ViewFrameState) : List DrawEvent :=
  if v.borderTop ≤ 0 ∧ v.borderRight ≤ 0 ∧ v.borderBottom ≤ 0 ∧ v.borderLeft ≤ 0 then []
  else [.border]

/-- The ordered list of side effects of one `View::frame` call
(`view.cpp:92-150`).  Structure of the source: early return when not
`VISIBLE`; `nvgSave`; theme override; then, only when
`alpha > 0 && collapseState != 0`, the drawing block — background,
highlight background when `highlightAlpha > 0 &&
isHighlightBackgroundEnabled()`, collapse scissor when
`collapseState < 1`, the `draw` hook, highlight foreground when
`highlightAlpha > 0`, `drawBorder`, scissor restore — and finally the
theme reset and `nvgRestore`. -/
def frameTrace (v : ViewFrameState) : List DrawEvent :=
  if v.visibility ≠ .visible then []
  else
    [.save]
    ++ (if v.themeOverride then [.themeSet] else [])
    ++ (if 0 < v.alpha ∧ v.collapseState ≠ 0 then
          [.background]
          ++ (if 0 < v.highlightAlpha ∧ v.highlightBackgroundEnabled then
                [.highlightBackground] else [])
          ++ (if v.collapseState < 1 then [.scissorSave, .scissor] else [])
          ++ [.drawHook]
          ++ (if 0 < v.highlightAlpha then [.highlightForeground] else [])
          ++ drawBorderTrace v
          ++ (if v.collapseState < 1 then [.scissorRestore] else [])
        else [])
    ++ (if v.themeOverride then [.themeReset] else [])
    ++ [.restore]

/-! ## `ScrollingBox` (`scrolling_box.cpp`) -/

/-- The laid-out geometry of one flat-box child as read by
`ScrollingBox::getContentHeight`: `YGNodeLayoutGetTop`,
`YGNodeLayoutGetHeight` and the `ntz`-normalized bottom margin
`YGNodeLayoutGetMargin(..., YGEdgeBottom)`. -/
structure ChildLayout where
  top : ℚ
  height : ℚ
  marginBottom : ℚ
deriving DecidableEq, Repr

/-- `ScrollingBox::getContentHeight` (`scrolling_box.cpp:155-168`):
zero for an empty flat box, otherwise last child top + (last child
height + last child bottom margin) − first child top. -/
def getContentHeight : List ChildLayout → ℚ
  | [] => 0
  | first :: rest =>
      let last := (first :: rest).getLast (List.cons_ne_nil _ _)
      last.top + (last.height + last.marginBottom) - first.top

/-- Declared constraints of one flat-box child: an explicit height
(enforced by `ScrollingBox::addView`) and top/bottom margins. -/
structure ChildSpec where
  height : ℚ
  marginTop : ℚ
  marginBottom : ℚ
deriving DecidableEq, Repr

/-- Modelled from the spec: the external flex-layout engine (excluded
collaborator, §6 of the spec) positions the children of a zero-spacing
COLUMN flat box top-to-bottom from offset `y`: each child's top is the
running offset plus its own top margin, and the offset then advances by
top margin + height + bottom margin. -/
def columnLayoutFrom (y : ℚ) : List ChildSpec → List ChildLayout
  | [] => []
  | c :: rest =>
      ⟨y + c.marginTop, c.height, c.marginBottom⟩ ::
        columnLayoutFrom (y + c.marginTop + c.height + c.marginBottom) rest

/-- Sum of the margins lying strictly between consecutive children:
`bottom margin of child i` + `top margin of child i+1`. -/
def interveningMargins : List ChildSpec → ℚ
  | [] => 0
  | [_] => 0
  | a :: b :: rest => (a.marginBottom + b.marginTop) + interveningMargins (b :: rest)

/-- `ScrollingBox::updateScrolling` (`scrolling_box.cpp:184-210`), the
scroll-target computation: the raw target centers the focused view on
the scrolling area's middle, the first clamp handles the bottom
boundary (against the prebaked `bottomY`), the second the top boundary,
and the result is converted to an absolute fraction of the content
height.  `scrollY` is the current fraction, `selMiddle` the focused
view's vertical middle (`currentSelectionMiddleOnScreen`), `topBoundary`
and `areaHeight` the live `getScrollingAreaTopBoundary()` /
`getScrollingAreaHeight()`, `middleY`/`bottomY` the values prebaked by
`prebakeScrolling`. -/
def updateScrollingTarget (scrollY contentHeight topBoundary areaHeight middleY bottomY
    selMiddle : ℚ) : ℚ :=
  let newScroll0 := -(scrollY * contentHeight) - (selMiddle - middleY)
  let newScroll1 :=
    if topBoundary + newScroll0 + contentHeight < bottomY then areaHeight - contentHeight
    else newScroll0
  let newScroll2 := if newScroll1 > 0 then 0 else newScroll1
  |newScroll2| / contentHeight

/-! ## Legacy `BoxLayout` (`box_layout.cpp`) -/

/-- The focus-memory fields of `BoxLayout`: the
`remember last focused child` flag, the originally configured
default-focus index (`originalDefaultFocus`, set in the constructor)
and the current `defaultFocusedIndex`. -/
structure BoxLayoutFocusState where
  rememberFocus : Bool
  originalDefaultFocus : Nat
  defaultFocusedIndex : Nat
deriving DecidableEq, Repr

/-- `BoxLayout::onChildFocusGained` (`box_layout.cpp:340-353`): when
remembering is enabled, store the focused child's position
(`std::distance` from the head of the child list) as the new default
focused index; otherwise leave the state unchanged. -/
def onChildFocusGainedBL (s : BoxLayoutFocusState) (childIndex : Nat) :
    BoxLayoutFocusState :=
  if s.rememberFocus then { s with defaultFocusedIndex := childIndex } else s

/-- The focus-index effect of `BoxLayout::willDisappear`
(`box_layout.cpp:380-388`): when remembering is enabled, reset
`defaultFocusedIndex` to the originally configured index; otherwise
leave it unchanged. -/
def willDisappearBL (s : BoxLayoutFocusState) : BoxLayoutFocusState :=
  if s.rememberFocus then { s with defaultFocusedIndex := s.originalDefaultFocus } else s

/-- Child boundaries as `unsigned` quantities, the way the RIGHT-gravity
post-pass of `BoxLayout::layout` reads them (`unsigned lastViewRight`,
`unsigned ourRight`, `box_layout.cpp:268-269`). -/
structure RectU where
  x : Nat
  y : Nat
  width : Nat
  height : Nat
deriving DecidableEq, Repr

/-- The RIGHT-gravity post-pass of `BoxLayout::layout` for HORIZONTAL
orientation (`box_layout.cpp:255-292`): when the child list is
non-empty and the last child's right edge is at or before the
container's right edge `ourRight`, shift every child rightward by the
difference; otherwise leave every child's boundaries unchanged. -/
def gravityRightPass (cs : List RectU) (ourRight : Nat) : List RectU :=
  match cs.getLast? with
  | none => cs
  | some last =>
      let lastViewRight := last.x + last.width
      if lastViewRight ≤ ourRight then
        cs.map (fun v => { v with x := v.x + (ourRight - lastViewRight) })
      else cs

/-! ## Helper lemmas -/

/-- Unfolding of `getDefaultFocus` on a box, with the termination
bookkeeping removed. -/
lemma getDefaultFocus_box (a : Axis) (d : Nat) (cs : List ViewT) :
    getDefaultFocus (.box a d cs) =
      match (if h : d < cs.length then getDefaultFocus (cs.get ⟨d, h⟩) else none) with
      | some v => some v
      | none => scanFirstFocus cs := by
  rw [getDefaultFocus]

/-- The fallback loop of `Box::getDefaultFocus` returns the first
non-null child default focus, in child order. -/
lemma scanFirstFocus_eq_findSome? (cs : List ViewT) :
    scanFirstFocus cs = cs.findSome? getDefaultFocus := by
  induction cs with
  | nil => rw [scanFirstFocus]; simp
  | cons c rest ih =>
      rw [scanFirstFocus, List.findSome?_cons]
      cases getDefaultFocus c <;> simp [ih]

/-- A forward `getNextFocus` scan starting at `idx` is the first-acceptor
scan of the children from `idx` on: the `size_t` increment never wraps
below the vector size. -/
lemma focusScan_forward_fst (n : Nat) (cs : List ViewT) (hlen : cs.length < sizeTMod)
    (idx : Nat) (hn : cs.length - idx ≤ n) :
    (focusScan cs hlen true idx).1 = scanFirstFocus (cs.drop idx) := by
  induction n generalizing idx with
  | zero =>
      have hge : cs.length ≤ idx := by omega
      rw [focusScan]
      rw [dif_neg (by omega)]
      rw [List.drop_eq_nil_of_le hge, scanFirstFocus]
  | succ n ih =>
      rw [focusScan]
      by_cases h : idx < cs.length
      · rw [dif_pos h]
        have hdrop : cs.drop idx = cs.get ⟨idx, h⟩ :: cs.drop (idx + 1) :=
          List.drop_eq_get_cons h
        rw [hdrop, scanFirstFocus]
        have hmod : (idx + 1) % sizeTMod = idx + 1 :=
          Nat.mod_eq_of_lt (by omega)
        cases hg : getDefaultFocus (cs.get ⟨idx, h⟩) with
        | some v => simp
        | none =>
            simp only [if_true]
            have := ih ((idx + 1) % sizeTMod) (by rw [hmod]; omega)
            rw [this, hmod]
      · rw [dif_neg h]
        rw [List.drop_eq_nil_of_le (by omega), scanFirstFocus]

/-! ## C2: axis/direction mismatch always yields no next focus -/

/-- C2.  For every box with axis ROW, `getNextFocus` with direction UP or
DOWN returns null regardless of the children, and symmetrically a COLUMN
box returns null for LEFT and RIGHT: the axis/direction gate at
`box.cpp:226-229` fires before any child is consulted. -/
theorem getNextFocus_axis_mismatch_none (cs : List ViewT) (hlen : cs.length < sizeTMod)
    (curIdx : Nat) :
    getNextFocus .row cs hlen .up curIdx = none ∧
    getNextFocus .row cs hlen .down curIdx = none ∧
    getNextFocus .column cs hlen .left curIdx = none ∧
    getNextFocus .column cs hlen .right curIdx = none := by
  refine ⟨?_, ?_, ?_, ?_⟩ <;> simp [getNextFocus]

/-- Witness for C2 at a concrete box. -/
theorem getNextFocus_axis_mismatch_none_witness :
    getNextFocus .row [ViewT.leaf 0 true] (by norm_num [sizeTMod]) .up 0 = none ∧
    getNextFocus .column [ViewT.leaf 0 true] (by norm_num [sizeTMod]) .right 0 = none := by
  have h := getNextFocus_axis_mismatch_none [ViewT.leaf 0 true]
    (by norm_num [sizeTMod]) 0
  exact ⟨h.1, h.2.2.2⟩

/-! ## C3: default focus with no prior history is the first acceptor -/

/-- C3.  For a box whose `defaultFocusedIndex` is still at its initial
value `0` (`box.hpp:132`), `getDefaultFocus` returns the first child in
insertion order whose own `getDefaultFocus` is non-null, and null when
every child declines (`List.findSome?` is exactly that first-acceptor
scan). -/
theorem getDefaultFocus_initial_first_acceptor (axis : Axis) (cs : List ViewT) :
    getDefaultFocus (.box axis 0 cs) = cs.findSome? getDefaultFocus := by
  rw [getDefaultFocus_box]
  cases cs with
  | nil => simp [scanFirstFocus]
  | cons c rest =>
      rw [dif_pos (by simp)]
      simp only [List.get]
      rw [List.findSome?_cons]
      cases h : getDefaultFocus c with
      | some v => simp
      | none =>
          simp only
          rw [scanFirstFocus, h, scanFirstFocus_eq_findSome?]

/-! ## C4: forward scan monotonicity -/

/-- On a ROW box with direction RIGHT, `getNextFocus` is the
first-acceptor scan over the children strictly after the current index. -/
lemma getNextFocus_row_right_eq (cs : List ViewT) (hlen : cs.length < sizeTMod)
    (curIdx : Nat) (hc : curIdx < cs.length) :
    getNextFocus .row cs hlen .right curIdx =
      scanFirstFocus (cs.drop (curIdx + 1)) := by
  have h0 : getNextFocus .row cs hlen .right curIdx =
      (focusScan cs hlen true ((curIdx + 1) % sizeTMod)).1 := by
    rw [getNextFocus, if_neg (by simp)]
    rfl
  have hmod : (curIdx + 1) % sizeTMod = curIdx + 1 := Nat.mod_eq_of_lt (by omega)
  rw [h0, focusScan_forward_fst cs.length cs hlen _ (Nat.sub_le _ _), hmod]

/-- C4.  If a ROW box's `getNextFocus` with direction RIGHT and current
child index `curIdx` returns a view, that view is the default-focus
resolution of a child at an index strictly greater than `curIdx`: the
scan starts at `curIdx + 1` and only moves forward (`box.cpp:232-246`). -/
theorem getNextFocus_row_right_monotone (cs : List ViewT) (hlen : cs.length < sizeTMod)
    (curIdx : Nat) (hc : curIdx < cs.length) (v : ViewT)
    (h : getNextFocus .row cs hlen .right curIdx = some v) :
    ∃ j, curIdx < j ∧ ∃ hj : j < cs.length, getDefaultFocus (cs.get ⟨j, hj⟩) = some v := by
  rw [getNextFocus_row_right_eq cs hlen curIdx hc,
    scanFirstFocus_eq_findSome?] at h
  obtain ⟨a, hmem, ha⟩ := List.exists_of_findSome?_eq_some h
  obtain ⟨k, hk, hget⟩ := List.mem_iff_getElem.mp hmem
  have hklen : curIdx + 1 + k < cs.length := by
    have := List.length_drop (curIdx + 1) cs
    omega
  refine ⟨curIdx + 1 + k, by omega, hklen, ?_⟩
  have hdg : (cs.drop (curIdx + 1))[k] = cs[curIdx + 1 + k] := List.getElem_drop cs
  rw [List.get_eq_getElem, ← hdg, hget, ha]

/-- Witness for C4: in a two-child ROW box focused on child 0, RIGHT
moves to the default focus of child 1. -/
theorem getNextFocus_row_right_monotone_witness :
    ∃ j, 0 < j ∧ ∃ hj : j < [ViewT.leaf 0 true, ViewT.leaf 7 true].length,
      getDefaultFocus ([ViewT.leaf 0 true, ViewT.leaf 7 true].get ⟨j, hj⟩) =
        some (.leaf 7 true) :=
  getNextFocus_row_right_monotone [ViewT.leaf 0 true, ViewT.leaf 7 true]
    (by norm_num [sizeTMod]) 0 (by norm_num) (.leaf 7 true)
    (by
      rw [getNextFocus_row_right_eq _ _ _ (by norm_num)]
      rw [show ([ViewT.leaf 0 true, ViewT.leaf 7 true].drop 1) = [ViewT.leaf 7 true] from rfl]
      rw [scanFirstFocus, getDefaultFocus]
      simp)

/-! ## C9: the scan loop terminates and stays in bounds -/

/-- A forward scan reads at most the children from `idx` on, each at an
in-bounds index. -/
lemma focusScan_forward_reads (n : Nat) (cs : List ViewT) (hlen : cs.length < sizeTMod)
    (idx : Nat) (hn : cs.length - idx ≤ n) :
    (focusScan cs hlen true idx).2.length ≤ cs.length - idx ∧
    ∀ j ∈ (focusScan cs hlen true idx).2, idx ≤ j ∧ j < cs.length := by
  induction n generalizing idx with
  | zero =>
      rw [focusScan, dif_neg (by omega)]
      simp
  | succ n ih =>
      rw [focusScan]
      by_cases h : idx < cs.length
      · rw [dif_pos h]
        cases hg : getDefaultFocus (cs.get ⟨idx, h⟩) with
        | some v =>
            refine ⟨by simp; omega, ?_⟩
            intro j hj
            simp only [List.mem_singleton] at hj
            omega
        | none =>
            simp only [if_true]
            have hmod : (idx + 1) % sizeTMod = idx + 1 := Nat.mod_eq_of_lt (by omega)
            obtain ⟨ih1, ih2⟩ := ih ((idx + 1) % sizeTMod) (by rw [hmod]; omega)
            rw [hmod] at ih1 ih2 ⊢
            refine ⟨by simp only [List.length_cons]; omega, ?_⟩
            intro j hj
            rcases List.mem_cons.mp hj with rfl | hj
            · exact ⟨le_refl _, h⟩
            · obtain ⟨h1, h2⟩ := ih2 j hj
              exact ⟨by omega, h2⟩
      · rw [dif_neg h]
        simp

/-- A backward scan reads at most the children from `idx` down to `0`,
each at an in-bounds index: the unsigned wrap below `0` lands at
`2 ^ 64 - 1`, which fails the `< size` loop bound. -/
lemma focusScan_backward_reads (cs : List ViewT) (hlen : cs.length < sizeTMod)
    (idx : Nat) :
    (focusScan cs hlen false idx).2.length ≤ idx + 1 ∧
    ∀ j ∈ (focusScan cs hlen false idx).2, j ≤ idx ∧ j < cs.length := by
  induction idx with
  | zero =>
      rw [focusScan]
      by_cases h : 0 < cs.length
      · rw [dif_pos h]
        cases hg : getDefaultFocus (cs.get ⟨0, h⟩) with
        | some v =>
            refine ⟨by simp, ?_⟩
            intro j hj
            simp only [List.mem_singleton] at hj
            omega
        | none =>
            simp only [Bool.false_eq_true, if_false]
            have hmod : (0 + (sizeTMod - 1)) % sizeTMod = sizeTMod - 1 :=
              Nat.mod_eq_of_lt (by simp [sizeTMod])
            rw [hmod]
            rw [focusScan, dif_neg (by omega)]
            simp [h]
      · rw [dif_neg h]
        simp
  | succ n ih =>
      rw [focusScan]
      by_cases h : n + 1 < cs.length
      · rw [dif_pos h]
        cases hg : getDefaultFocus (cs.get ⟨n + 1, h⟩) with
        | some v =>
            refine ⟨by simp, ?_⟩
            intro j hj
            simp only [List.mem_singleton] at hj
            omega
        | none =>
            simp only [Bool.false_eq_true, if_false]
            have hone : 1 ≤ sizeTMod := by simp [sizeTMod]
            have hmod : (n + 1 + (sizeTMod - 1)) % sizeTMod = n := by
              have hstep : n + 1 + (sizeTMod - 1) = n + sizeTMod := by omega
              rw [hstep, Nat.add_mod_right]
              exact Nat.mod_eq_of_lt (by omega)
            rw [hmod]
            obtain ⟨ih1, ih2⟩ := ih
            refine ⟨by simp only [List.length_cons]; omega, ?_⟩
            intro j hj
            rcases List.mem_cons.mp hj with rfl | hj
            · exact ⟨le_refl _, h⟩
            · obtain ⟨h1, h2⟩ := ih2 j hj
              exact ⟨by omega, h2⟩
      · rw [dif_neg h]
        simp

/-- C9.  Whenever the current child's stored index is below the number
of children, `Box::getNextFocus` reads at most `children.size()`
entries of the child vector, every one of them at an in-bounds index:
in particular the backward (`LEFT`/`UP`) scan, whose `size_t` offset is
`2 ^ 64 - 1`, wraps past the vector length when stepping back from
index `0` and is stopped by the `currentFocusIndex < size` bound. -/
theorem getNextFocus_reads_in_bounds (axis : Axis) (cs : List ViewT)
    (hlen : cs.length < sizeTMod) (direction : FocusDirection) (curIdx : Nat)
    (hc : curIdx < cs.length) :
    (getNextFocusReads axis cs hlen direction curIdx).length ≤ cs.length ∧
    ∀ j ∈ getNextFocusReads axis cs hlen direction curIdx, j < cs.length := by
  have hfwd : ∀ start, start = (curIdx + 1) % sizeTMod →
      ((focusScan cs hlen true start).2.length ≤ cs.length ∧
       ∀ j ∈ (focusScan cs hlen true start).2, j < cs.length) := by
    intro start hstart
    obtain ⟨h1, h2⟩ := focusScan_forward_reads cs.length cs hlen start (Nat.sub_le _ _)
    exact ⟨by omega, fun j hj => (h2 j hj).2⟩
  have hbwd : ∀ start, start = (curIdx + (sizeTMod - 1)) % sizeTMod →
      ((focusScan cs hlen false start).2.length ≤ cs.length ∧
       ∀ j ∈ (focusScan cs hlen false start).2, j < cs.length) := by
    intro start hstart
    have hone : 1 ≤ sizeTMod := by simp [sizeTMod]
    rcases Nat.eq_zero_or_pos curIdx with hz | hp
    · subst hz
      have hwrap : start = sizeTMod - 1 := by
        rw [hstart]
        exact Nat.mod_eq_of_lt (by omega)
      rw [hwrap, focusScan, dif_neg (by omega)]
      simp
    · have hstep : start = curIdx - 1 := by
        rw [hstart]
        have : curIdx + (sizeTMod - 1) = (curIdx - 1) + sizeTMod := by omega
        rw [this, Nat.add_mod_right]
        exact Nat.mod_eq_of_lt (by omega)
      obtain ⟨h1, h2⟩ := focusScan_backward_reads cs hlen start
      refine ⟨by omega, fun j hj => (h2 j hj).2⟩
  cases axis <;> cases direction
  · exact ⟨by rw [getNextFocusReads, if_pos (by simp)]; simp,
      by rw [getNextFocusReads, if_pos (by simp)]; simp⟩
  · exact ⟨by rw [getNextFocusReads, if_pos (by simp)]; simp,
      by rw [getNextFocusReads, if_pos (by simp)]; simp⟩
  · exact hbwd _ rfl
  · exact hfwd _ rfl
  · exact hbwd _ rfl
  · exact hfwd _ rfl
  · exact ⟨by rw [getNextFocusReads, if_pos (by simp)]; simp,
      by rw [getNextFocusReads, if_pos (by simp)]; simp⟩
  · exact ⟨by rw [getNextFocusReads, if_pos (by simp)]; simp,
      by rw [getNextFocusReads, if_pos (by simp)]; simp⟩

/-- Witness for C9 on a concrete one-child ROW box with current index 0
and direction LEFT (the wrap-around case). -/
theorem getNextFocus_reads_in_bounds_witness :
    (getNextFocusReads .row [ViewT.leaf 0 true] (by norm_num [sizeTMod]) .left 0).length ≤
      [ViewT.leaf 0 true].length ∧
    ∀ j ∈ getNextFocusReads .row [ViewT.leaf 0 true] (by norm_num [sizeTMod]) .left 0,
      j < [ViewT.leaf 0 true].length :=
  getNextFocus_reads_in_bounds .row [ViewT.leaf 0 true] (by norm_num [sizeTMod]) .left 0
    (by norm_num)

/-! ## C1: typed-channel routing of attribute values -/

/-- Routing through the `%` branch of `applyXMLAttribute`
(`view.cpp:988-1011`): the parsed value is handed to the percentage
handler unchanged. -/
lemma applyXMLAttribute_routes_percent (reg : AttrRegistration) (sg : String → ℚ)
    (tg : String → NVGColorT) (value : String) (q : ℚ)
    (hs : reg.hasString = false) (hauto : value ≠ "auto")
    (hpx : endsWithChars value.toList "px".toList = false)
    (hpct : endsWithChars value.toList "%".toList = true)
    (hq : stof? (value.toList.take (value.toList.length - 1)) = some q)
    (hrange : ¬(q < 0 ∨ q > 100)) (hp : reg.hasPercentage = true) :
    applyXMLAttribute reg sg tg value = .percentageApplied q := by
  simp only [applyXMLAttribute, hs, Bool.false_eq_true, if_false, if_neg hauto, hpx,
    hpct, if_true, hq, hp]
  rw [if_neg hrange]

/-- Routing through the `px` branch of `applyXMLAttribute`
(`view.cpp:966-985`). -/
lemma applyXMLAttribute_routes_px (reg : AttrRegistration) (sg : String → ℚ)
    (tg : String → NVGColorT) (value : String) (q : ℚ)
    (hs : reg.hasString = false) (hauto : value ≠ "auto")
    (hpx : endsWithChars value.toList "px".toList = true)
    (hq : stof? (value.toList.take (value.toList.length - 2)) = some q)
    (hf : reg.hasFloat = true) :
    applyXMLAttribute reg sg tg value = .floatApplied q := by
  simp only [applyXMLAttribute, hs, Bool.false_eq_true, if_false, if_neg hauto, hpx,
    if_true, hq, hf]

/-- Evaluation fact: `std::stof("50")` is `50`. -/
lemma stof?_fifty : stof? ("50%".toList.take ("50%".toList.length - 1)) = some 50 := by
  have h : stof? ("50%".toList.take ("50%".toList.length - 1)) =
      some ((1 : ℚ) * ((digitsToNat ['5', '0'] : ℚ) + (digitsToNat [] : ℚ) / 10 ^ (0 : Nat))) :=
    rfl
  rw [h, show digitsToNat ['5', '0'] = 50 from by decide,
    show digitsToNat [] = 0 from by decide]
  norm_num

/-- Evaluation fact: `std::stof("10")` is `10`. -/
lemma stof?_ten : stof? ("10px".toList.take ("10px".toList.length - 2)) = some 10 := by
  have h : stof? ("10px".toList.take ("10px".toList.length - 2)) =
      some ((1 : ℚ) * ((digitsToNat ['1', '0'] : ℚ) + (digitsToNat [] : ℚ) / 10 ^ (0 : Nat))) :=
    rfl
  rw [h, show digitsToNat ['1', '0'] = 10 from by decide,
    show digitsToNat [] = 0 from by decide]
  norm_num

/-- Routing of `"#FF0000"` through the 6-digit color branch
(`view.cpp:1032-1046`). -/
lemma applyXMLAttribute_hexcolor6 (reg : AttrRegistration) (sg : String → ℚ)
    (tg : String → NVGColorT) (hs : reg.hasString = false) (hc : reg.hasColor = true) :
    applyXMLAttribute reg sg tg "#FF0000" = .colorApplied ⟨255, 0, 0, 255⟩ := by
  simp only [applyXMLAttribute, hs, hc]
  rfl

/-- Routing of `"#FF000080"` through the 8-digit color branch
(`view.cpp:1048-1062`). -/
lemma applyXMLAttribute_hexcolor8 (reg : AttrRegistration) (sg : String → ℚ)
    (tg : String → NVGColorT) (hs : reg.hasString = false) (hc : reg.hasColor = true) :
    applyXMLAttribute reg sg tg "#FF000080" = .colorApplied ⟨255, 0, 0, 128⟩ := by
  simp only [applyXMLAttribute, hs, hc]
  rfl

/-- C1 (counterexample): on a name registered on the percentage channel
(and not on the exclusive string channel), the value `"50%"` invokes the
percentage handler with the raw value `50`, not with the normalized
`0.5` claimed by the spec (the handler consumers, e.g.
`View::setWidthPercentage` feeding `YGNodeStyleSetWidthPercent`, expect
the 0–100 scale). -/
theorem applyXMLAttribute_percent_not_normalized :
    applyXMLAttribute ⟨false, false, true, true, true⟩ (fun _ => 0)
      (fun _ => ⟨0, 0, 0, 0⟩) "50%" = .percentageApplied 50 ∧
    (50 : ℚ) ≠ 1 / 2 := by
  constructor
  · exact applyXMLAttribute_routes_percent _ _ _ _ 50 rfl (by decide) (by decide)
      (by decide) stof?_fifty (by norm_num) rfl
  · norm_num

/-- C1 (amended).  For a name registered on the percentage, float and
color channels and not on the (exclusive) string channel:  `"50%"`
invokes the percentage handler with the raw value `50.0` (not `0.5`),
`"10px"` invokes the float handler with `10.0`, `"#FF0000"` yields
opaque red (`alpha` byte `255`), and `"#FF000080"` yields red with
alpha byte `0x80` (i.e. `0x80/255` once NanoVG scales it). -/
theorem applyXMLAttribute_concrete_routing (reg : AttrRegistration)
    (sg : String → ℚ) (tg : String → NVGColorT)
    (hs : reg.hasString = false) (hf : reg.hasFloat = true)
    (hp : reg.hasPercentage = true) (hc : reg.hasColor = true) :
    applyXMLAttribute reg sg tg "50%" = .percentageApplied 50 ∧
    applyXMLAttribute reg sg tg "10px" = .floatApplied 10 ∧
    applyXMLAttribute reg sg tg "#FF0000" = .colorApplied ⟨255, 0, 0, 255⟩ ∧
    applyXMLAttribute reg sg tg "#FF000080" = .colorApplied ⟨255, 0, 0, 128⟩ := by
  refine ⟨?_, ?_, ?_, ?_⟩
  · exact applyXMLAttribute_routes_percent reg sg tg _ 50 hs (by decide) (by decide)
      (by decide) stof?_fifty (by norm_num) hp
  · exact applyXMLAttribute_routes_px reg sg tg _ 10 hs (by decide) (by decide)
      stof?_ten hf
  · exact applyXMLAttribute_hexcolor6 reg sg tg hs hc
  · exact applyXMLAttribute_hexcolor8 reg sg tg hs hc

/-- Witness for the amended C1 at a concrete registration. -/
theorem applyXMLAttribute_concrete_routing_witness :
    applyXMLAttribute ⟨false, false, true, true, true⟩ (fun _ => 0)
      (fun _ => ⟨0, 0, 0, 0⟩) "50%" = .percentageApplied 50 ∧
    applyXMLAttribute ⟨false, false, true, true, true⟩ (fun _ => 0)
      (fun _ => ⟨0, 0, 0, 0⟩) "10px" = .floatApplied 10 ∧
    applyXMLAttribute ⟨false, false, true, true, true⟩ (fun _ => 0)
      (fun _ => ⟨0, 0, 0, 0⟩) "#FF0000" = .colorApplied ⟨255, 0, 0, 255⟩ ∧
    applyXMLAttribute ⟨false, false, true, true, true⟩ (fun _ => 0)
      (fun _ => ⟨0, 0, 0, 0⟩) "#FF000080" = .colorApplied ⟨255, 0, 0, 128⟩ :=
  applyXMLAttribute_concrete_routing _ _ _ rfl rfl rfl rfl

/-! ## C5: scroll-target boundary clamps -/

/-- C5.  With the boundaries prebaked consistently
(`bottomY = topBoundary + areaHeight`, from `prebakeScrolling`),
positive content height and content at least as tall as the scrolling
area: a requested target that would move content above the top boundary
(positive raw offset) yields scroll fraction `0`, and a target that
would move content below the bottom boundary yields fraction
`(contentHeight - areaHeight) / contentHeight`, i.e. the last child's
bottom edge sits exactly on the area's bottom boundary. -/
theorem updateScrolling_clamps (scrollY contentHeight topBoundary areaHeight middleY
    bottomY selMiddle : ℚ) (hb : bottomY = topBoundary + areaHeight)
    (hch : 0 < contentHeight) (harea : areaHeight ≤ contentHeight) :
    (0 < -(scrollY * contentHeight) - (selMiddle - middleY) →
      updateScrollingTarget scrollY contentHeight topBoundary areaHeight middleY
        bottomY selMiddle = 0) ∧
    (topBoundary + (-(scrollY * contentHeight) - (selMiddle - middleY)) + contentHeight
        < bottomY →
      updateScrollingTarget scrollY contentHeight topBoundary areaHeight middleY
        bottomY selMiddle = (contentHeight - areaHeight) / contentHeight) := by
  constructor
  · intro hpos
    simp only [updateScrollingTarget]
    have hnb : ¬(topBoundary + (-(scrollY * contentHeight) - (selMiddle - middleY))
        + contentHeight < bottomY) := by
      rw [hb]
      intro hlt
      linarith
    rw [if_neg hnb, if_pos hpos]
    simp
  · intro hbel
    simp only [updateScrollingTarget]
    rw [if_pos hbel]
    have hng : ¬(areaHeight - contentHeight > 0) := by
      intro hgt
      linarith
    rw [if_neg hng, abs_of_nonpos (by linarith), neg_sub]

/-- Witness for C5: concrete top-clamp and bottom-clamp instances. -/
theorem updateScrolling_clamps_witness :
    updateScrollingTarget 0 100 0 50 25 50 0 = 0 ∧
    updateScrollingTarget 0 100 0 50 25 50 200 = (100 - 50) / 100 := by
  have h1 := (updateScrolling_clamps 0 100 0 50 25 50 0 (by norm_num) (by norm_num)
    (by norm_num)).1 (by norm_num)
  have h2 := (updateScrolling_clamps 0 100 0 50 25 50 200 (by norm_num) (by norm_num)
    (by norm_num)).2 (by norm_num)
  exact ⟨h1, h2⟩

/-! ## C6: content height from declared heights and margins -/

/-- Dropping the first element of a two-or-more element list shifts
`getContentHeight` by the difference of the two heads' tops. -/
lemma getContentHeight_cons_cons (a b : ChildLayout) (l : List ChildLayout) :
    getContentHeight (a :: b :: l) = getContentHeight (b :: l) + (b.top - a.top) := by
  simp only [getContentHeight, List.getLast_cons_cons]
  ring

/-- The content height of a column of children laid out from any start
offset is the sum of their heights, plus the margins between
consecutive children, plus the last child's bottom margin. -/
lemma getContentHeight_columnLayoutFrom (y : ℚ) (c : ChildSpec) (rest : List ChildSpec) :
    getContentHeight (columnLayoutFrom y (c :: rest)) =
      ((c :: rest).map ChildSpec.height).sum + interveningMargins (c :: rest) +
        ((c :: rest).getLast (List.cons_ne_nil c rest)).marginBottom := by
  induction rest generalizing y c with
  | nil =>
      simp [columnLayoutFrom, getContentHeight, interveningMargins]
  | cons d rest ih =>
      have hunfold : columnLayoutFrom y (c :: d :: rest) =
          ⟨y + c.marginTop, c.height, c.marginBottom⟩ ::
            columnLayoutFrom (y + c.marginTop + c.height + c.marginBottom) (d :: rest) :=
        rfl
      have hunfold2 : columnLayoutFrom (y + c.marginTop + c.height + c.marginBottom)
          (d :: rest) =
          ⟨y + c.marginTop + c.height + c.marginBottom + d.marginTop, d.height,
            d.marginBottom⟩ ::
            columnLayoutFrom (y + c.marginTop + c.height + c.marginBottom + d.marginTop
              + d.height + d.marginBottom) rest :=
        rfl
      rw [hunfold, hunfold2, getContentHeight_cons_cons, ← hunfold2,
        ih (y + c.marginTop + c.height + c.marginBottom) d]
      simp only [List.map_cons, List.sum_cons, interveningMargins,
        List.getLast_cons_cons]
      ring

/-- C6.  For a non-empty ScrollingBox, `getContentHeight` equals the sum
of the children's declared heights plus all margins lying between
consecutive children plus the last child's bottom margin — equivalently,
the span from the first child's top edge (whose layout coordinate
already accounts for its own top margin, `scrolling_box.cpp:167`) to the
last child's bottom edge extended by its bottom margin. -/
theorem getContentHeight_margins (cs : List ChildSpec) (hne : cs ≠ []) :
    getContentHeight (columnLayoutFrom 0 cs) =
      (cs.map ChildSpec.height).sum + interveningMargins cs +
        (cs.getLast hne).marginBottom := by
  cases cs with
  | nil => exact absurd rfl hne
  | cons c rest => exact getContentHeight_columnLayoutFrom 0 c rest

/-- Witness for C6: heights 10 and 20, bottom margin 2 then top margin 3
between the children, final bottom margin 4: content height 39. -/
theorem getContentHeight_margins_witness :
    getContentHeight (columnLayoutFrom 0 [⟨10, 1, 2⟩, ⟨20, 3, 4⟩]) = 39 := by
  have h := getContentHeight_margins [⟨10, 1, 2⟩, ⟨20, 3, 4⟩] (by simp)
  rw [h]
  norm_num [interveningMargins, List.getLast]

/-! ## C7: the fixed effect order of `View::frame` -/

/-- C7 (counterexample): a VISIBLE view with `alpha == 0` draws no
background at all — `frame()` skips the whole drawing block unless
`alpha > 0 && collapseState != 0` (`view.cpp:111`), so visibility alone
does not guarantee the claimed sequence. -/
theorem frameTrace_visible_zero_alpha_no_background :
    (ViewFrameState.mk .visible false 0 1 0 true 0 0 0 0).visibility = .visible ∧
    DrawEvent.background ∉ frameTrace (ViewFrameState.mk .visible false 0 1 0 true 0 0 0 0) := by
  refine ⟨rfl, ?_⟩
  simp [frameTrace]

/-- C7 (amended).  `frame()` draws nothing at all when the view is not
VISIBLE; when it is VISIBLE and additionally `alpha > 0` and
`collapseState ≠ 0`, the side effects happen in exactly this fixed
order: graphics save, theme override (when set), background,
focus-highlight background (when highlight alpha > 0 and the highlight
background is enabled), collapse scissor (when partially collapsed),
the view-specific draw hook, focus-highlight foreground (when highlight
alpha > 0), declared borders, scissor restore, theme reset, graphics
restore. -/
theorem frameTrace_fixed_order (v w : ViewFrameState)
    (hv : v.visibility = .visible) (ha : 0 < v.alpha) (hcol : v.collapseState ≠ 0)
    (hw : w.visibility ≠ .visible) :
    frameTrace v =
      [.save] ++ (if v.themeOverride then [.themeSet] else [])
        ++ [.background]
        ++ (if 0 < v.highlightAlpha ∧ v.highlightBackgroundEnabled then
              [.highlightBackground] else [])
        ++ (if v.collapseState < 1 then [.scissorSave, .scissor] else [])
        ++ [.drawHook]
        ++ (if 0 < v.highlightAlpha then [.highlightForeground] else [])
        ++ drawBorderTrace v
        ++ (if v.collapseState < 1 then [.scissorRestore] else [])
        ++ (if v.themeOverride then [.themeReset] else [])
        ++ [.restore] ∧
    frameTrace w = [] := by
  constructor
  · simp only [frameTrace, hv, ne_eq, not_true_eq_false, if_false,
      if_pos (And.intro ha hcol)]
    simp [List.append_assoc]
  · simp [frameTrace, hw]

/-- Witness for the amended C7 at concrete views. -/
theorem frameTrace_fixed_order_witness :
    frameTrace (ViewFrameState.mk .visible true 1 (1/2) 1 true 1 0 0 0) =
      [.save, .themeSet, .background, .highlightBackground, .scissorSave, .scissor,
        .drawHook, .highlightForeground, .border, .scissorRestore, .themeReset,
        .restore] ∧
    frameTrace (ViewFrameState.mk .gone false 1 1 0 true 0 0 0 0) = [] := by
  have h := frameTrace_fixed_order (ViewFrameState.mk .visible true 1 (1/2) 1 true 1 0 0 0)
    (ViewFrameState.mk .gone false 1 1 0 true 0 0 0 0) rfl (by norm_num) (by norm_num)
    (by simp)
  refine ⟨?_, h.2⟩
  rw [h.1]
  norm_num [drawBorderTrace]

/-! ## C8: the legacy focus-memory state machine -/

/-- C8 (counterexample): with remembering enabled, focusing child 2 and
then disappearing does not preserve the remembered index — it is reset
to the original (`box_layout.cpp:386-387` runs exactly when
`rememberFocus` is true). -/
theorem boxLayout_remembered_index_not_persistent :
    (willDisappearBL (onChildFocusGainedBL ⟨true, 0, 0⟩ 2)).defaultFocusedIndex ≠
      (onChildFocusGainedBL ⟨true, 0, 0⟩ 2).defaultFocusedIndex := by
  decide

/-- C8 (amended).  When `rememberFocus` is enabled, `onChildFocusGained`
stores the focused child's index but `willDisappear` resets the
default-focus index back to the originally configured one (so the
remembered index persists only while the layout stays on screen); when
the mode is disabled, neither call changes the state at all. -/
theorem boxLayout_focus_memory (b : Bool) (orig dfi i : Nat) :
    willDisappearBL (onChildFocusGainedBL ⟨b, orig, dfi⟩ i) =
      ⟨b, orig, if b then orig else dfi⟩ := by
  cases b <;> simp [onChildFocusGainedBL, willDisappearBL]

/-! ## C10: the RIGHT-gravity post-pass -/

/-- C10.  For a non-empty HORIZONTAL legacy layout with RIGHT gravity:
when the last child's right edge is at or before the container's right
edge, every child is shifted rightward by exactly the (non-negative)
difference; when the children overflow the container, every child's
boundaries are left unchanged; and in every case the pass is a uniform
non-negative rightward shift — no child ever moves leftward. -/
theorem gravityRightPass_spec (cs : List RectU) (last : RectU) (ourRight : Nat)
    (hlast : cs.getLast? = some last) :
    (last.x + last.width ≤ ourRight →
      gravityRightPass cs ourRight =
        cs.map (fun v => { v with x := v.x + (ourRight - (last.x + last.width)) })) ∧
    (ourRight < last.x + last.width → gravityRightPass cs ourRight = cs) ∧
    (∃ d, gravityRightPass cs ourRight =
      cs.map (fun v => { v with x := v.x + d })) := by
  simp only [gravityRightPass, hlast]
  refine ⟨fun h => by rw [if_pos h], fun h => by rw [if_neg (by omega)], ?_⟩
  by_cases h : last.x + last.width ≤ ourRight
  · exact ⟨ourRight - (last.x + last.width), by rw [if_pos h]⟩
  · refine ⟨0, ?_⟩
    rw [if_neg h]
    have hid : (fun v : RectU => { v with x := v.x + 0 }) = id := by
      funext v
      cases v
      simp
    rw [hid, List.map_id]

/-- Witness for C10: a single child of width 5; container right edge 9
shifts it by 4, container right edge 3 (overflow) leaves it in place. -/
theorem gravityRightPass_spec_witness :
    gravityRightPass [⟨0, 0, 5, 5⟩] 9 = [⟨4, 0, 5, 5⟩] ∧
    gravityRightPass [⟨0, 0, 5, 5⟩] 3 = [⟨0, 0, 5, 5⟩] := by
  have h1 := (gravityRightPass_spec [⟨0, 0, 5, 5⟩] ⟨0, 0, 5, 5⟩ 9 rfl).1 (by norm_num)
  have h2 := ((gravityRightPass_spec [⟨0, 0, 5, 5⟩] ⟨0, 0, 5, 5⟩ 3 rfl).2).1 (by norm_num)
  exact ⟨by rw [h1]; rfl, h2⟩

end Borealis
